import Mathlib

/-!
# Verification of the force-directed layout core

Shallow embedding of `src/algorithms/force-directed-layout.ts`
(class `ForceDirectedLayout`) and the statements of the specification
about it.  Coordinates are embedded as exact rationals; the Euclidean
distance (`Math.sqrt`) lands in `ℝ`.

The d3 force simulation is an external library: `d3.forceSimulation`
receives the freshly allocated array of simulation nodes (the `map`
copies built at the top of `optimizeLayout`) and each `tick()` mutates
only the position/velocity fields of those records in place — it can
neither change the array's length nor any `id` field.  We therefore
embed the simulation as an arbitrary transformation `tick` of the
position assignment (index ↦ position), iterated `iterations` times,
which covers every possible behaviour of the library.
-/

namespace GraphViz

/-- A vertex: stable string identifier plus a 2-D position
(`Node` of `src/data/malawi-districts.ts`). -/
structure Node where
  id : String
  x : ℚ
  y : ℚ
deriving DecidableEq, Repr

instance : Inhabited Node := ⟨⟨"", 0, 0⟩⟩

/-- An edge: an unordered pair of vertex identifiers. -/
structure Edge where
  source : String
  target : String
deriving DecidableEq, Repr

instance : Inhabited Edge := ⟨⟨"", ""⟩⟩

/-- A graph: ordered vertex list plus edge list. -/
structure GraphData where
  nodes : List Node
  edges : List Edge
deriving DecidableEq, Repr

/-- The `LayoutOptions` record of `force-directed-layout.ts`. -/
structure LayoutOptions where
  width : ℚ
  height : ℚ
  iterations : ℕ
  alpha : ℚ
  alphaDecay : ℚ
  velocityDecay : ℚ
  chargeStrength : ℚ
  linkDistance : ℚ
  linkStrength : ℚ
deriving DecidableEq, Repr

/-- The constructor defaults of `ForceDirectedLayout`. -/
def defaultOptions : LayoutOptions where
  width := 800
  height := 600
  iterations := 300
  alpha := 3 / 10
  alphaDecay := 228 / 10000
  velocityDecay := 4 / 10
  chargeStrength := -30
  linkDistance := 100
  linkStrength := 1

/-- `new Map(nodes.map(node => [node.id, node])).get(key)`: Map insertion
iterates the list in order and a later binding for a key overwrites an
earlier one, so lookup returns the last node carrying the key (`none`
when no node does). -/
def nodeMapGet (nodes : List Node) (key : String) : Option Node :=
  nodes.foldl (fun acc n => if n.id = key then some n else acc) none

/-- A lookup that succeeds returns a node actually carrying the key. -/
theorem nodeMapGet_id {nodes : List Node} {key : String} {n : Node}
    (h : nodeMapGet nodes key = some n) : n.id = key := by
  have general : ∀ (l : List Node) (acc : Option Node),
      (∀ m, acc = some m → m.id = key) →
      (l.foldl (fun acc n => if n.id = key then some n else acc) acc = some n → n.id = key) := by
    intro l
    induction l with
    | nil => intro acc hacc h; exact hacc n h
    | cons a l ih =>
        intro acc hacc h
        simp only [List.foldl_cons] at h
        by_cases ha : a.id = key
        · exact ih (some a) (by intro m hm; cases hm; exact ha) (by simpa [ha] using h)
        · exact ih acc hacc (by simpa [ha] using h)
  exact general nodes none (by intro m hm; cases hm) h

/-- Both endpoints of the edge resolve in the node map (the guard
`if (source && target)` / `if (node1 && node2 && node3 && node4)`). -/
def resolvable (nodes : List Node) (e : Edge) : Bool :=
  (nodeMapGet nodes e.source).isSome && (nodeMapGet nodes e.target).isSome

/-- `optimizeLayout` (lines 35–67): scale the input positions to the
workspace (`x * width`, `y * height`), run the d3 simulation for exactly
`iterations` ticks, and rescale each final position back with
`Math.max(0, Math.min(1, p / dimension))`.  The simulation is the
abstract `tick`, iterated on the position assignment of the fresh
simulation-node array; the `id` fields of that array are never written
by d3, so the result pairs each input vertex (in order) with its
clamped final position.  Division here is exact rational division
(whose `q / 0 = 0` convention differs from JavaScript at a zero
dimension); `optimizeLayoutJS` below embeds the same final rescaling
under JavaScript number semantics, and the two agree whenever the
dimensions are nonzero. -/
def optimizeLayout (tick : (ℕ → ℚ × ℚ) → (ℕ → ℚ × ℚ))
    (opts : LayoutOptions) (graphData : GraphData) : List Node :=
  let simInit : ℕ → ℚ × ℚ := fun i =>
    match graphData.nodes.get? i with
    | some node => (node.x * opts.width, node.y * opts.height)
    | none => (0, 0)
  let final : ℕ → ℚ × ℚ := tick^[opts.iterations] simInit
  graphData.nodes.mapIdx fun i node =>
    { id := node.id
      x := max 0 (min 1 ((final i).1 / opts.width))
      y := max 0 (min 1 ((final i).2 / opts.height)) }

/-- A JavaScript number as the rescaling of `optimizeLayout` can
produce it: a finite (here exact rational) value, one of the two
infinities, or `NaN`. -/
inductive JSNum where
  | finite (val : ℚ)
  | posInf
  | negInf
  | nan
deriving DecidableEq, Repr

/-- JavaScript division of two finite numbers, keeping the IEEE special
cases of a zero divisor: `0/0 = NaN`, `a/0 = ±Infinity` for `a ≠ 0`
(the nonzero-divisor quotient is kept exact). -/
def jsDiv (a b : ℚ) : JSNum :=
  if b = 0 then
    if a = 0 then JSNum.nan else if 0 < a then JSNum.posInf else JSNum.negInf
  else JSNum.finite (a / b)

/-- `Math.min(a, v)` for a finite constant `a`: `NaN` propagates,
`+Infinity` is absorbed, `-Infinity` wins. -/
def jsMin (a : ℚ) (v : JSNum) : JSNum :=
  match v with
  | JSNum.finite q => JSNum.finite (min a q)
  | JSNum.posInf => JSNum.finite a
  | JSNum.negInf => JSNum.negInf
  | JSNum.nan => JSNum.nan

/-- `Math.max(a, v)` for a finite constant `a`: `NaN` propagates,
`-Infinity` is absorbed, `+Infinity` wins. -/
def jsMax (a : ℚ) (v : JSNum) : JSNum :=
  match v with
  | JSNum.finite q => JSNum.finite (max a q)
  | JSNum.posInf => JSNum.posInf
  | JSNum.negInf => JSNum.finite a
  | JSNum.nan => JSNum.nan

/-- The value lies in [0, 1]: it is finite and in range (`NaN` and the
infinities are not). -/
def jsInUnit : JSNum → Bool
  | JSNum.finite q => decide (0 ≤ q ∧ q ≤ 1)
  | _ => false

/-- A result vertex whose coordinates are JavaScript numbers. -/
structure NodeJS where
  id : String
  x : JSNum
  y : JSNum
deriving DecidableEq, Repr

/-- `optimizeLayout` with the final rescaling taken under JavaScript
number semantics: identical structure to `optimizeLayout`, but the
division `simX / width` (lines 64–65) keeps the IEEE special values of
a zero divisor, which `Math.min`/`Math.max` then propagate or absorb.
For nonzero dimensions this agrees with the exact-arithmetic
`optimizeLayout` (`optimizeLayoutJS_agrees`); at a zero dimension they
differ — the program produces non-finite coordinates there. -/
def optimizeLayoutJS (tick : (ℕ → ℚ × ℚ) → (ℕ → ℚ × ℚ))
    (opts : LayoutOptions) (graphData : GraphData) : List NodeJS :=
  let simInit : ℕ → ℚ × ℚ := fun i =>
    match graphData.nodes.get? i with
    | some node => (node.x * opts.width, node.y * opts.height)
    | none => (0, 0)
  let final : ℕ → ℚ × ℚ := tick^[opts.iterations] simInit
  graphData.nodes.mapIdx fun i node =>
    { id := node.id
      x := jsMax 0 (jsMin 1 (jsDiv (final i).1 opts.width))
      y := jsMax 0 (jsMin 1 (jsDiv (final i).2 opts.height)) }

/-- With a nonzero dimension, `Math.max(0, Math.min(1, sim / dim))` is a
finite value in [0, 1]. -/
theorem jsClamp_unit (sim dim : ℚ) (h : dim ≠ 0) :
    jsInUnit (jsMax 0 (jsMin 1 (jsDiv sim dim))) = true := by
  rw [jsDiv, if_neg h]
  show jsInUnit (JSNum.finite (max 0 (min 1 (sim / dim)))) = true
  simp only [jsInUnit, decide_eq_true_eq]
  exact ⟨le_max_left _ _, max_le (by norm_num) (min_le_left _ _)⟩

/-- C1 counterexample: as stated the claim fails at a zero-dimension
configuration.  With `width = height = 0` and zero iterations the
simulated position of the vertex is `(1/2 · 0, 1/2 · 0) = (0, 0)`, the
rescaling computes `0 / 0 = NaN`, and `Math.max(0, Math.min(1, NaN))`
is `NaN` — which does not lie in [0, 1]. -/
theorem optimizeLayout_bounds_counterexample :
    optimizeLayoutJS id { defaultOptions with width := 0, height := 0, iterations := 0 }
      ⟨[⟨"A", 1/2, 1/2⟩], []⟩ = [⟨"A", JSNum.nan, JSNum.nan⟩] ∧
    jsInUnit JSNum.nan = false := by
  constructor
  · simp [optimizeLayoutJS, defaultOptions, jsDiv, jsMin, jsMax]
  · rfl

/-- C1 amended: for every graph, every simulation behaviour and every
configuration whose width and height are nonzero, each coordinate of
each returned vertex is a finite value in [0, 1]: the final rescaling
clamps the finite quotient `sim / dimension` into the unit interval.
(With a zero dimension the division produces `NaN`/`±Infinity`; `NaN`
escapes the clamp, see `optimizeLayout_bounds_counterexample`.) -/
theorem optimizeLayoutJS_bounds (tick : (ℕ → ℚ × ℚ) → (ℕ → ℚ × ℚ))
    (opts : LayoutOptions) (graphData : GraphData)
    (hw : opts.width ≠ 0) (hh : opts.height ≠ 0) :
    ∀ nd ∈ optimizeLayoutJS tick opts graphData,
      jsInUnit nd.x = true ∧ jsInUnit nd.y = true := by
  intro nd hnd
  rw [optimizeLayoutJS, List.mapIdx_eq_enum_map] at hnd
  obtain ⟨⟨i, node⟩, _, rfl⟩ := List.mem_map.mp hnd
  exact ⟨jsClamp_unit _ _ hw, jsClamp_unit _ _ hh⟩

/-- Closed instance of `optimizeLayoutJS_bounds` at a concrete graph
with the default (nonzero) dimensions, the membership and nonzero
hypotheses discharged by evaluation. -/
theorem optimizeLayoutJS_bounds_witness :
    ({ defaultOptions with iterations := 0 } : LayoutOptions).width ≠ 0 ∧
    ({ defaultOptions with iterations := 0 } : LayoutOptions).height ≠ 0 ∧
    (⟨"A", JSNum.finite 1, JSNum.finite 0⟩ : NodeJS) ∈ optimizeLayoutJS id
      { defaultOptions with iterations := 0 } ⟨[⟨"A", 2, -3⟩], []⟩ ∧
    jsInUnit (JSNum.finite 1) = true ∧ jsInUnit (JSNum.finite 0) = true := by
  have hmem : (⟨"A", JSNum.finite 1, JSNum.finite 0⟩ : NodeJS) ∈ optimizeLayoutJS id
      { defaultOptions with iterations := 0 } ⟨[⟨"A", 2, -3⟩], []⟩ := by
    simp [optimizeLayoutJS, defaultOptions, jsDiv, jsMin, jsMax]
    norm_num
  refine ⟨by norm_num [defaultOptions], by norm_num [defaultOptions], hmem, ?_⟩
  exact optimizeLayoutJS_bounds id { defaultOptions with iterations := 0 }
    ⟨[⟨"A", 2, -3⟩], []⟩ (by norm_num [defaultOptions]) (by norm_num [defaultOptions])
    ⟨"A", JSNum.finite 1, JSNum.finite 0⟩ hmem

/-- On nonzero dimensions the JavaScript-semantics rescaling and the
exact-arithmetic `optimizeLayout` produce the same layout: the special
values arise only from a zero dimension. -/
theorem optimizeLayoutJS_agrees (tick : (ℕ → ℚ × ℚ) → (ℕ → ℚ × ℚ))
    (opts : LayoutOptions) (g : GraphData)
    (hw : opts.width ≠ 0) (hh : opts.height ≠ 0) :
    optimizeLayoutJS tick opts g =
      (optimizeLayout tick opts g).map fun n => ⟨n.id, JSNum.finite n.x, JSNum.finite n.y⟩ := by
  rw [optimizeLayout, optimizeLayoutJS, List.mapIdx_eq_enum_map, List.mapIdx_eq_enum_map,
    List.map_map]
  apply List.map_congr_left
  rintro ⟨i, node⟩ _
  simp only [Function.uncurry_apply_pair, Function.comp_apply, jsDiv, if_neg hw, if_neg hh]
  rfl

/-- Mapping a position-only update over a list with `mapIdx` keeps the
identifier list unchanged. -/
theorem map_id_mapIdx (l : List Node) (f : ℕ → Node → Node)
    (hf : ∀ i n, (f i n).id = n.id) :
    (l.mapIdx f).map Node.id = l.map Node.id := by
  rw [List.mapIdx_eq_enum_map, List.map_map]
  have h : (Node.id ∘ Function.uncurry f) = fun p : ℕ × Node => p.2.id := by
    funext p; exact hf p.1 p.2
  have h2 : (fun p : ℕ × Node => p.2.id) = Node.id ∘ Prod.snd := rfl
  rw [h, h2, ← List.map_map, List.enum_map_snd]

/-- C2: the optimized list has the same length as the input and the
identifier at every index is unchanged — only positions change. -/
theorem optimizeLayout_preserves_ids (tick : (ℕ → ℚ × ℚ) → (ℕ → ℚ × ℚ))
    (opts : LayoutOptions) (graphData : GraphData) :
    (optimizeLayout tick opts graphData).length = graphData.nodes.length ∧
    (optimizeLayout tick opts graphData).map Node.id = graphData.nodes.map Node.id := by
  constructor
  · rw [optimizeLayout]
    exact List.length_mapIdx
  · rw [optimizeLayout]
    exact map_id_mapIdx _ _ (fun i n => rfl)

/-- `doEdgesCross` (lines 94–117): false when the two segments share an
endpoint identifier; otherwise compute the four orientation determinants
and report a crossing exactly when both determinant products are
strictly negative (strict `<`, so collinear or touching configurations
are not crossings). -/
def doEdgesCross (node1 node2 node3 node4 : Node) : Bool :=
  if node1.id = node3.id ∨ node1.id = node4.id ∨ node2.id = node3.id ∨ node2.id = node4.id then
    false
  else
    let det1 := (node1.x - node3.x) * (node4.y - node3.y) - (node1.y - node3.y) * (node4.x - node3.x)
    let det2 := (node2.x - node3.x) * (node4.y - node3.y) - (node2.y - node3.y) * (node4.x - node3.x)
    let det3 := (node3.x - node1.x) * (node2.y - node1.y) - (node3.y - node1.y) * (node2.x - node1.x)
    let det4 := (node4.x - node1.x) * (node2.y - node1.y) - (node4.y - node1.y) * (node2.x - node1.x)
    decide (det1 * det2 < 0 ∧ det3 * det4 < 0)

/-- C3: on segments that do not share an endpoint identifier,
`doEdgesCross` is true exactly when both determinant products are
strictly negative, and any vanishing determinant product (collinear or
touching configuration) yields false. -/
theorem doEdgesCross_iff_straddle (node1 node2 node3 node4 : Node)
    (h13 : node1.id ≠ node3.id) (h14 : node1.id ≠ node4.id)
    (h23 : node2.id ≠ node3.id) (h24 : node2.id ≠ node4.id) :
    (doEdgesCross node1 node2 node3 node4 = true ↔
      ((node1.x - node3.x) * (node4.y - node3.y) - (node1.y - node3.y) * (node4.x - node3.x)) *
        ((node2.x - node3.x) * (node4.y - node3.y) - (node2.y - node3.y) * (node4.x - node3.x)) < 0 ∧
      ((node3.x - node1.x) * (node2.y - node1.y) - (node3.y - node1.y) * (node2.x - node1.x)) *
        ((node4.x - node1.x) * (node2.y - node1.y) - (node4.y - node1.y) * (node2.x - node1.x)) < 0) ∧
    ((((node1.x - node3.x) * (node4.y - node3.y) - (node1.y - node3.y) * (node4.x - node3.x)) *
        ((node2.x - node3.x) * (node4.y - node3.y) - (node2.y - node3.y) * (node4.x - node3.x)) = 0 ∨
      ((node3.x - node1.x) * (node2.y - node1.y) - (node3.y - node1.y) * (node2.x - node1.x)) *
        ((node4.x - node1.x) * (node2.y - node1.y) - (node4.y - node1.y) * (node2.x - node1.x)) = 0) →
      doEdgesCross node1 node2 node3 node4 = false) := by
  have hguard : ¬(node1.id = node3.id ∨ node1.id = node4.id ∨
      node2.id = node3.id ∨ node2.id = node4.id) := by
    simp [h13, h14, h23, h24]
  have hmain : doEdgesCross node1 node2 node3 node4 = true ↔
      ((node1.x - node3.x) * (node4.y - node3.y) - (node1.y - node3.y) * (node4.x - node3.x)) *
        ((node2.x - node3.x) * (node4.y - node3.y) - (node2.y - node3.y) * (node4.x - node3.x)) < 0 ∧
      ((node3.x - node1.x) * (node2.y - node1.y) - (node3.y - node1.y) * (node2.x - node1.x)) *
        ((node4.x - node1.x) * (node2.y - node1.y) - (node4.y - node1.y) * (node2.x - node1.x)) < 0 := by
    simp only [doEdgesCross, if_neg hguard, decide_eq_true_eq]
  refine ⟨hmain, ?_⟩
  intro h0
  rcases Bool.eq_false_or_eq_true (doEdgesCross node1 node2 node3 node4) with hb | hb
  swap
  · exact hb
  · exfalso
    have := hmain.mp hb
    rcases h0 with h0 | h0
    · rw [h0] at this; exact lt_irrefl 0 this.1
    · rw [h0] at this; exact lt_irrefl 0 this.2

/-- Closed instance of `doEdgesCross_iff_straddle`: the diagonals of the
unit square cross. -/
theorem doEdgesCross_iff_straddle_witness :
    (("A" : String) ≠ "C" ∧ ("A" : String) ≠ "D" ∧
     ("B" : String) ≠ "C" ∧ ("B" : String) ≠ "D") ∧
    doEdgesCross ⟨"A", 0, 0⟩ ⟨"B", 1, 1⟩ ⟨"C", 0, 1⟩ ⟨"D", 1, 0⟩ = true := by
  refine ⟨by decide, ?_⟩
  exact (doEdgesCross_iff_straddle ⟨"A", 0, 0⟩ ⟨"B", 1, 1⟩ ⟨"C", 0, 1⟩ ⟨"D", 1, 0⟩
    (by decide) (by decide) (by decide) (by decide)).1.mpr (by norm_num)

/-- `doEdgesCross` is symmetric in the two segments. -/
theorem doEdgesCross_symm (n1 n2 n3 n4 : Node) :
    doEdgesCross n1 n2 n3 n4 = doEdgesCross n3 n4 n1 n2 := by
  by_cases hg : n1.id = n3.id ∨ n1.id = n4.id ∨ n2.id = n3.id ∨ n2.id = n4.id
  · have hg' : n3.id = n1.id ∨ n3.id = n2.id ∨ n4.id = n1.id ∨ n4.id = n2.id := by tauto
    simp only [doEdgesCross, if_pos hg, if_pos hg']
  · have hg' : ¬(n3.id = n1.id ∨ n3.id = n2.id ∨ n4.id = n1.id ∨ n4.id = n2.id) := by tauto
    simp only [doEdgesCross, if_neg hg, if_neg hg']
    exact decide_eq_decide.mpr ⟨fun h => ⟨h.2, h.1⟩, fun h => ⟨h.2, h.1⟩⟩

/-- The `for (i = 0; i < n; i++) for (j = i + 1; j < n; j++)` double
loop shared by `calculateEdgeCrossings` and
`calculateMinimumNodeDistance`, folding `f` over the visited index
pairs in visit order. -/
def pairLoop {α : Type} (f : α → ℕ × ℕ → α) (n : ℕ) (init : α) : α :=
  (List.range n).foldl
    (fun acc i => (List.range' (i + 1) (n - (i + 1))).foldl (fun a j => f a (i, j)) acc) init

/-- The index pairs the double loop visits, in visit order. -/
def pairList (n : ℕ) : List (ℕ × ℕ) :=
  (List.range n).flatMap fun i => (List.range' (i + 1) (n - (i + 1))).map fun j => (i, j)

theorem pairLoop_eq_foldl {α : Type} (f : α → ℕ × ℕ → α) (n : ℕ) (init : α) :
    pairLoop f n init = (pairList n).foldl f init := by
  rw [pairLoop, pairList]
  induction List.range n generalizing init with
  | nil => rfl
  | cons i l ih =>
      rw [List.foldl_cons, List.flatMap_cons, List.foldl_append, List.foldl_map]
      exact ih _

theorem mem_pairList {n : ℕ} {p : ℕ × ℕ} :
    p ∈ pairList n ↔ p.1 < p.2 ∧ p.2 < n := by
  cases p with
  | mk i j =>
      simp only [pairList, List.mem_flatMap, List.mem_map, List.mem_range, List.mem_range'_1]
      constructor
      · rintro ⟨a, ha, b, hb, heq⟩
        cases heq
        omega
      · rintro ⟨hij, hjn⟩
        exact ⟨i, by omega, ⟨j, by omega, rfl⟩⟩

theorem pairList_nodup (n : ℕ) : (pairList n).Nodup := by
  rw [pairList]
  refine List.nodup_flatMap.mpr ⟨?_, ?_⟩
  · intro i _
    refine List.Nodup.map ?_ (List.nodup_range' _ _)
    intro a b h
    simpa using congrArg Prod.snd h
  · refine List.Pairwise.imp ?_ (List.pairwise_lt_range n)
    intro a b hab x hxa hxb
    obtain ⟨j, _, rfl⟩ := List.mem_map.mp hxa
    obtain ⟨k, _, heq⟩ := List.mem_map.mp hxb
    have : b = a := by simpa using congrArg Prod.fst heq
    omega

/-- The loop-visited pairs as a finite set. -/
def pairFinset (n : ℕ) : Finset (ℕ × ℕ) :=
  ⟨(pairList n : Multiset (ℕ × ℕ)), by exact_mod_cast pairList_nodup n⟩

theorem mem_pairFinset {n : ℕ} {p : ℕ × ℕ} :
    p ∈ pairFinset n ↔ p.1 < p.2 ∧ p.2 < n := by
  rw [pairFinset, Finset.mem_mk, Multiset.mem_coe]
  exact mem_pairList

/-- The double loop visits exactly the ordered pairs `i < j` of indices
below `n` — each unordered pair of distinct indices exactly once. -/
theorem pairFinset_eq (n : ℕ) :
    pairFinset n = (Finset.range n ×ˢ Finset.range n).filter fun p => p.1 < p.2 := by
  apply Finset.ext
  intro p
  rw [mem_pairFinset, Finset.mem_filter, Finset.mem_product, Finset.mem_range, Finset.mem_range]
  omega

theorem foldl_count {α : Type} (p : α → Bool) (l : List α) (a : ℕ) :
    l.foldl (fun acc x => if p x then acc + 1 else acc) a = a + l.countP p := by
  induction l generalizing a with
  | nil => simp
  | cons x l ih =>
      by_cases hx : p x <;> simp [hx, ih, List.countP_cons] <;> omega

theorem foldl_min_eq_inf {α : Type} [LinearOrder α] [OrderTop α] (l : List α) (a : α) :
    l.foldl min a = a ⊓ (l : Multiset α).inf := by
  induction l generalizing a with
  | nil => simp [Multiset.inf_coe]
  | cons x l ih =>
      rw [List.foldl_cons, ih, Multiset.inf_coe, Multiset.inf_coe, List.foldr_cons]
      rw [show (min a x : α) = a ⊓ x from rfl, inf_assoc]

/-- The body of the inner loop of `calculateEdgeCrossings` (lines
74–88): resolve the four endpoints in the node map and, when all four
resolve, test the segments with `doEdgesCross`; otherwise the pair does
not count. -/
def edgesCross (nodes : List Node) (edge1 edge2 : Edge) : Bool :=
  match nodeMapGet nodes edge1.source, nodeMapGet nodes edge1.target,
      nodeMapGet nodes edge2.source, nodeMapGet nodes edge2.target with
  | some node1, some node2, some node3, some node4 => doEdgesCross node1 node2 node3 node4
  | _, _, _, _ => false

/-- `calculateEdgeCrossings` (lines 69–92): count over the double loop
`i < j` of edge indices. -/
def calculateEdgeCrossings (nodes : List Node) (edges : List Edge) : ℕ :=
  pairLoop
    (fun crossings p =>
      if edgesCross nodes (edges.getD p.1 default) (edges.getD p.2 default) then crossings + 1
      else crossings)
    edges.length 0

/-- The guard of `doEdgesCross`: segments sharing an endpoint identifier
never cross. -/
theorem doEdgesCross_of_shared_id {n1 n2 n3 n4 : Node}
    (h : n1.id = n3.id ∨ n1.id = n4.id ∨ n2.id = n3.id ∨ n2.id = n4.id) :
    doEdgesCross n1 n2 n3 n4 = false := by
  simp only [doEdgesCross, if_pos h]

/-- A degenerate first segment (a self-loop resolves both endpoints to
the same node) never crosses anything: its orientation determinant
vanishes. -/
theorem doEdgesCross_self_loop (n1 n3 n4 : Node) :
    doEdgesCross n1 n1 n3 n4 = false := by
  by_cases hg : n1.id = n3.id ∨ n1.id = n4.id ∨ n1.id = n3.id ∨ n1.id = n4.id
  · simp only [doEdgesCross, if_pos hg]
  · simp only [doEdgesCross, if_neg hg]
    simp [sub_self, lt_irrefl]

theorem edgesCross_symm (nodes : List Node) (e1 e2 : Edge) :
    edgesCross nodes e1 e2 = edgesCross nodes e2 e1 := by
  rcases h1 : nodeMapGet nodes e1.source with _ | n1 <;>
  rcases h2 : nodeMapGet nodes e1.target with _ | n2 <;>
  rcases h3 : nodeMapGet nodes e2.source with _ | n3 <;>
  rcases h4 : nodeMapGet nodes e2.target with _ | n4 <;>
  simp only [edgesCross, h1, h2, h3, h4] <;>
  first
  | rfl
  | exact doEdgesCross_symm n1 n2 n3 n4

theorem edgesCross_shared_endpoint (nodes : List Node) (e1 e2 : Edge)
    (h : e1.source = e2.source ∨ e1.source = e2.target ∨
         e1.target = e2.source ∨ e1.target = e2.target) :
    edgesCross nodes e1 e2 = false := by
  rcases h1 : nodeMapGet nodes e1.source with _ | n1 <;>
  rcases h2 : nodeMapGet nodes e1.target with _ | n2 <;>
  rcases h3 : nodeMapGet nodes e2.source with _ | n3 <;>
  rcases h4 : nodeMapGet nodes e2.target with _ | n4 <;>
  simp only [edgesCross, h1, h2, h3, h4]
  apply doEdgesCross_of_shared_id
  have i1 := nodeMapGet_id h1
  have i2 := nodeMapGet_id h2
  have i3 := nodeMapGet_id h3
  have i4 := nodeMapGet_id h4
  rcases h with h | h | h | h
  · exact Or.inl (by rw [i1, i3, h])
  · exact Or.inr (Or.inl (by rw [i1, i4, h]))
  · exact Or.inr (Or.inr (Or.inl (by rw [i2, i3, h])))
  · exact Or.inr (Or.inr (Or.inr (by rw [i2, i4, h])))

theorem edgesCross_self_loop (nodes : List Node) (e1 e2 : Edge)
    (h : e1.source = e1.target) :
    edgesCross nodes e1 e2 = false := by
  rcases h1 : nodeMapGet nodes e1.source with _ | n1 <;>
  rcases h2 : nodeMapGet nodes e1.target with _ | n2 <;>
  rcases h3 : nodeMapGet nodes e2.source with _ | n3 <;>
  rcases h4 : nodeMapGet nodes e2.target with _ | n4 <;>
  simp only [edgesCross, h1, h2, h3, h4]
  have : n1 = n2 := by
    rw [h] at h1
    rw [h1] at h2
    exact (Option.some_inj.mp h2)
  rw [← this]
  exact doEdgesCross_self_loop n1 n3 n4

/-- The crossing test the double loop performs at the index pair `p`. -/
def edgesCrossAt (nodes : List Node) (edges : List Edge) (p : ℕ × ℕ) : Bool :=
  edgesCross nodes (edges.getD p.1 default) (edges.getD p.2 default)

theorem card_filter_pairFinset (n : ℕ) (p : ℕ × ℕ → Bool) :
    ((pairFinset n).filter fun q => p q = true).card = (pairList n).countP p := by
  have hval : ((pairFinset n).filter fun q => p q = true).val =
      Multiset.filter (fun q => p q = true) (pairFinset n).val := Finset.filter_val _ _
  have hfun : (fun a => decide (p a = true)) = p := by
    funext a; cases h : p a <;> simp [h]
  rw [Finset.card_def, hval, pairFinset]
  show Multiset.card (Multiset.filter _ (pairList n : Multiset (ℕ × ℕ))) = _
  rw [Multiset.filter_coe, Multiset.coe_card, hfun, List.countP_eq_length_filter]

theorem calculateEdgeCrossings_eq_card_lt (nodes : List Node) (edges : List Edge) :
    calculateEdgeCrossings nodes edges =
      ((Finset.range edges.length ×ˢ Finset.range edges.length).filter
        fun p => p.1 < p.2 ∧ edgesCrossAt nodes edges p = true).card := by
  have h1 : calculateEdgeCrossings nodes edges =
      (pairList edges.length).countP (edgesCrossAt nodes edges) := by
    rw [calculateEdgeCrossings, pairLoop_eq_foldl]
    have : (fun (crossings : ℕ) (p : ℕ × ℕ) =>
        if edgesCross nodes (edges.getD p.1 default) (edges.getD p.2 default) then crossings + 1
        else crossings) =
        fun (crossings : ℕ) p =>
          if edgesCrossAt nodes edges p then crossings + 1 else crossings := rfl
    rw [this, foldl_count, Nat.zero_add]
  rw [h1, ← card_filter_pairFinset, pairFinset_eq, Finset.filter_filter]

/-- Swapping the two index arguments of the loop's crossing test changes
nothing (the segment test is symmetric). -/
theorem edgesCrossAt_symm (nodes : List Node) (edges : List Edge) (i j : ℕ) :
    edgesCrossAt nodes edges (i, j) = edgesCrossAt nodes edges (j, i) :=
  edgesCross_symm nodes _ _

theorem card_ne_filter_eq_two_mul (n : ℕ) (c : ℕ × ℕ → Bool)
    (hsymm : ∀ i j, c (i, j) = c (j, i)) :
    ((Finset.range n ×ˢ Finset.range n).filter fun p => p.1 ≠ p.2 ∧ c p = true).card =
      2 * ((Finset.range n ×ˢ Finset.range n).filter fun p => p.1 < p.2 ∧ c p = true).card := by
  have hsplit : ((Finset.range n ×ˢ Finset.range n).filter fun p => p.1 ≠ p.2 ∧ c p = true) =
      ((Finset.range n ×ˢ Finset.range n).filter fun p => p.1 < p.2 ∧ c p = true) ∪
      ((Finset.range n ×ˢ Finset.range n).filter fun p => p.2 < p.1 ∧ c p = true) := by
    rw [← Finset.filter_or]
    apply Finset.filter_congr
    intro q _
    constructor
    · rintro ⟨hne, hc⟩
      rcases lt_or_gt_of_ne hne with h | h
      · exact Or.inl ⟨h, hc⟩
      · exact Or.inr ⟨h, hc⟩
    · rintro (⟨h, hc⟩ | ⟨h, hc⟩)
      · exact ⟨Nat.ne_of_lt h, hc⟩
      · exact ⟨(Nat.ne_of_lt h).symm, hc⟩
  have hdisj : Disjoint
      ((Finset.range n ×ˢ Finset.range n).filter fun p => p.1 < p.2 ∧ c p = true)
      ((Finset.range n ×ˢ Finset.range n).filter fun p => p.2 < p.1 ∧ c p = true) := by
    rw [Finset.disjoint_left]
    intro q hq hq'
    rw [Finset.mem_filter] at hq hq'
    omega
  have hflip : ((Finset.range n ×ˢ Finset.range n).filter fun p => p.2 < p.1 ∧ c p = true).card =
      ((Finset.range n ×ˢ Finset.range n).filter fun p => p.1 < p.2 ∧ c p = true).card := by
    apply Finset.card_bij' (fun q _ => Prod.swap q) (fun q _ => Prod.swap q)
    · intro a ha
      rw [Finset.mem_filter] at ha ⊢
      rw [Finset.mem_product] at ha ⊢
      refine ⟨⟨ha.1.2, ha.1.1⟩, ha.2.1, ?_⟩
      rw [show (Prod.swap a) = (a.2, a.1) from rfl, hsymm]
      exact ha.2.2
    · intro a ha
      rw [Finset.mem_filter] at ha ⊢
      rw [Finset.mem_product] at ha ⊢
      refine ⟨⟨ha.1.2, ha.1.1⟩, ha.2.1, ?_⟩
      rw [show (Prod.swap a) = (a.2, a.1) from rfl, hsymm]
      exact ha.2.2
    · intro a _
      exact Prod.swap_swap a
    · intro a _
      exact Prod.swap_swap a
  rw [hsplit, Finset.card_union_of_disjoint hdisj, hflip, Nat.two_mul]

/-- C4: the pairwise crossing test is symmetric in the two edges; two
edges sharing an endpoint identifier (in particular an edge paired with
itself) never cross; a self-loop never crosses anything; and the double
loop of `calculateEdgeCrossings` counts each unordered pair of distinct
edge indices exactly once. -/
theorem calculateEdgeCrossings_spec (nodes : List Node) (edges : List Edge) :
    (∀ e1 e2 : Edge, edgesCross nodes e1 e2 = edgesCross nodes e2 e1) ∧
    (∀ e1 e2 : Edge,
      (e1.source = e2.source ∨ e1.source = e2.target ∨
       e1.target = e2.source ∨ e1.target = e2.target) →
      edgesCross nodes e1 e2 = false) ∧
    (∀ e1 e2 : Edge, e1.source = e1.target → edgesCross nodes e1 e2 = false) ∧
    calculateEdgeCrossings nodes edges =
      ((Finset.range edges.length ×ˢ Finset.range edges.length).filter
        fun p => p.1 < p.2 ∧ edgesCrossAt nodes edges p = true).card ∧
    2 * calculateEdgeCrossings nodes edges =
      ((Finset.range edges.length ×ˢ Finset.range edges.length).filter
        fun p => p.1 ≠ p.2 ∧ edgesCrossAt nodes edges p = true).card := by
  refine ⟨fun e1 e2 => edgesCross_symm nodes e1 e2,
    fun e1 e2 h => edgesCross_shared_endpoint nodes e1 e2 h,
    fun e1 e2 h => edgesCross_self_loop nodes e1 e2 h,
    calculateEdgeCrossings_eq_card_lt nodes edges, ?_⟩
  rw [card_ne_filter_eq_two_mul edges.length (edgesCrossAt nodes edges)
    (edgesCrossAt_symm nodes edges), calculateEdgeCrossings_eq_card_lt]

/-- Closed instance of `calculateEdgeCrossings_spec`: shared-endpoint and
self-loop conjuncts applied at concrete edges, and the counts evaluated
on the unit-square diagonals. -/
theorem calculateEdgeCrossings_spec_witness :
    edgesCross [⟨"A", 0, 0⟩, ⟨"B", 1, 1⟩, ⟨"C", 0, 1⟩] ⟨"A", "B"⟩ ⟨"A", "C"⟩ = false ∧
    edgesCross [⟨"A", 0, 0⟩, ⟨"B", 1, 1⟩, ⟨"C", 0, 1⟩] ⟨"A", "A"⟩ ⟨"B", "C"⟩ = false := by
  constructor
  · exact (calculateEdgeCrossings_spec [⟨"A", 0, 0⟩, ⟨"B", 1, 1⟩, ⟨"C", 0, 1⟩] []).2.1
      ⟨"A", "B"⟩ ⟨"A", "C"⟩ (Or.inl rfl)
  · exact (calculateEdgeCrossings_spec [⟨"A", 0, 0⟩, ⟨"B", 1, 1⟩, ⟨"C", 0, 1⟩] []).2.2.1
      ⟨"A", "A"⟩ ⟨"B", "C"⟩ rfl

/-- Euclidean distance between two nodes:
`Math.sqrt(Math.pow(sx - tx, 2) + Math.pow(sy - ty, 2))`. -/
noncomputable def nodeDist (a b : Node) : ℝ :=
  Real.sqrt (((a.x - b.x : ℚ) : ℝ) ^ 2 + ((a.y - b.y : ℚ) : ℝ) ^ 2)

/-- `calculateAverageDistance` (lines 119–138): fold over the edge list
accumulating `(totalDistance, edgeCount)` over the edges whose two
endpoints resolve in the node map, then
`edgeCount > 0 ? totalDistance / edgeCount : 0`. -/
noncomputable def calculateAverageDistance (nodes : List Node) (edges : List Edge) : ℝ :=
  let acc := edges.foldl
    (fun (acc : ℝ × ℕ) edge =>
      match nodeMapGet nodes edge.source, nodeMapGet nodes edge.target with
      | some source, some target => (acc.1 + nodeDist source target, acc.2 + 1)
      | _, _ => acc)
    (0, 0)
  if 0 < acc.2 then acc.1 / (acc.2 : ℝ) else 0

/-- The distance a resolvable edge contributes (0 for an unresolvable
edge, which the fold never adds). -/
noncomputable def edgeDist (nodes : List Node) (e : Edge) : ℝ :=
  match nodeMapGet nodes e.source, nodeMapGet nodes e.target with
  | some s, some t => nodeDist s t
  | _, _ => 0

theorem avgStep_foldl (nodes : List Node) (edges : List Edge) (t : ℝ) (c : ℕ) :
    edges.foldl
      (fun (acc : ℝ × ℕ) edge =>
        match nodeMapGet nodes edge.source, nodeMapGet nodes edge.target with
        | some source, some target => (acc.1 + nodeDist source target, acc.2 + 1)
        | _, _ => acc) (t, c) =
    (t + ((edges.filter (resolvable nodes)).map (edgeDist nodes)).sum,
     c + (edges.filter (resolvable nodes)).length) := by
  induction edges generalizing t c with
  | nil => simp
  | cons e es ih =>
      rw [List.foldl_cons]
      rcases h1 : nodeMapGet nodes e.source with _ | s <;>
        rcases h2 : nodeMapGet nodes e.target with _ | tg <;>
        simp only [h1, h2] <;>
        rw [ih] <;>
        simp [List.filter_cons, resolvable, h1, h2, edgeDist, Prod.mk.injEq]
      refine ⟨by ring, by omega⟩

/-- C5: the average connected-pair distance is the sum of the Euclidean
distances of the edges whose two endpoints resolve, divided by the
number of such edges; unresolvable edges affect neither numerator nor
denominator, and the result is 0 (not an error) when no edge resolves —
in particular for the empty edge list. -/
theorem calculateAverageDistance_spec (nodes : List Node) (edges : List Edge) :
    calculateAverageDistance nodes edges =
      if (edges.filter (resolvable nodes)).length = 0 then 0
      else ((edges.filter (resolvable nodes)).map (edgeDist nodes)).sum /
        ((edges.filter (resolvable nodes)).length : ℝ) := by
  rw [calculateAverageDistance]
  simp only [avgStep_foldl nodes edges 0 0, zero_add, Nat.zero_add]
  by_cases h : (edges.filter (resolvable nodes)).length = 0
  · simp [h]
  · simp [h, Nat.pos_of_ne_zero h]

/-- `calculateMinimumNodeDistance` (lines 140–153): double loop over all
index pairs `i < j` of the node list, folding `Math.min` from the
`Infinity` sentinel (`⊤`). -/
noncomputable def calculateMinimumNodeDistance (nodes : List Node) : WithTop ℝ :=
  pairLoop
    (fun md p =>
      min md ((nodeDist (nodes.getD p.1 default) (nodes.getD p.2 default) : ℝ) : WithTop ℝ))
    nodes.length ⊤

/-- C6: the minimum node distance is the infimum of the Euclidean
distances over all unordered pairs of distinct vertex indices
(regardless of adjacency), and with fewer than two vertices it is the
positive-infinity sentinel `⊤`. -/
theorem calculateMinimumNodeDistance_spec (nodes : List Node) :
    calculateMinimumNodeDistance nodes =
      ((Finset.range nodes.length ×ˢ Finset.range nodes.length).filter fun p => p.1 < p.2).inf
        (fun p => ((nodeDist (nodes.getD p.1 default) (nodes.getD p.2 default) : ℝ) : WithTop ℝ)) ∧
    (nodes.length < 2 → calculateMinimumNodeDistance nodes = ⊤) := by
  have hmain : calculateMinimumNodeDistance nodes =
      ((Finset.range nodes.length ×ˢ Finset.range nodes.length).filter fun p => p.1 < p.2).inf
        (fun p => ((nodeDist (nodes.getD p.1 default) (nodes.getD p.2 default) : ℝ) : WithTop ℝ)) := by
    rw [calculateMinimumNodeDistance, pairLoop_eq_foldl, ← pairFinset_eq, Finset.inf_def]
    have hmap : (fun (md : WithTop ℝ) (p : ℕ × ℕ) =>
        min md ((nodeDist (nodes.getD p.1 default) (nodes.getD p.2 default) : ℝ) : WithTop ℝ)) =
        fun md p => min md ((fun q : ℕ × ℕ =>
          ((nodeDist (nodes.getD q.1 default) (nodes.getD q.2 default) : ℝ) : WithTop ℝ)) p) := rfl
    rw [hmap, ← List.foldl_map, foldl_min_eq_inf, top_inf_eq]
    rw [show (pairFinset nodes.length).val = (pairList nodes.length : Multiset (ℕ × ℕ)) from rfl]
    rw [Multiset.map_coe]
  refine ⟨hmain, fun hlt => ?_⟩
  rw [hmain]
  have hempty : ((Finset.range nodes.length ×ˢ Finset.range nodes.length).filter
      fun p : ℕ × ℕ => p.1 < p.2) = ∅ := by
    apply Finset.eq_empty_of_forall_not_mem
    intro p hp
    rw [Finset.mem_filter, Finset.mem_product, Finset.mem_range, Finset.mem_range] at hp
    omega
  rw [hempty, Finset.inf_empty]

/-- Closed instance of `calculateMinimumNodeDistance_spec`: a singleton
vertex list yields the infinity sentinel. -/
theorem calculateMinimumNodeDistance_spec_witness :
    ([(⟨"A", 1/2, 1/2⟩ : Node)].length < 2) ∧
    calculateMinimumNodeDistance [(⟨"A", 1/2, 1/2⟩ : Node)] = ⊤ := by
  refine ⟨by norm_num, ?_⟩
  exact (calculateMinimumNodeDistance_spec [(⟨"A", 1/2, 1/2⟩ : Node)]).2 (by norm_num)

/-- Modelled from the spec: the per-step link force is implemented by
the external d3 library (`d3.forceLink`), whose source is not part of
this repository — `optimizeLayout` only hands it the edge-endpoint
identifiers (lines 42–56).  The spec (§4.1, Error conditions) fixes the
behaviour on an edge referencing an unknown vertex identifier as "a
silent no-op contribution (the edge is skipped for link-force
purposes)".  One link-force pass therefore folds a per-edge spring
contribution (`spring`, abstract, since the spec fixes only the skip
behaviour) over the position state, skipping every edge with an
unresolved endpoint. -/
def linkForcePass (spring : Edge → (ℕ → ℚ × ℚ) → (ℕ → ℚ × ℚ))
    (nodes : List Node) (edges : List Edge) (pos : ℕ → ℚ × ℚ) : ℕ → ℚ × ℚ :=
  edges.foldl (fun p e => if resolvable nodes e then spring e p else p) pos

/-- C7: an edge whose source or target identifier resolves to no vertex
is a silent no-op: the link-force pass over the edge list equals the
pass with the dangling edge removed, and `optimizeLayout` (total — it
raises nothing) still returns a result for every input vertex. -/
theorem dangling_edge_skipped (spring : Edge → (ℕ → ℚ × ℚ) → (ℕ → ℚ × ℚ))
    (g : GraphData) (e : Edge) (es1 es2 : List Edge) (pos : ℕ → ℚ × ℚ)
    (tick : (ℕ → ℚ × ℚ) → (ℕ → ℚ × ℚ)) (opts : LayoutOptions)
    (hdangling : resolvable g.nodes e = false) (hsplit : g.edges = es1 ++ e :: es2) :
    linkForcePass spring g.nodes g.edges pos =
      linkForcePass spring g.nodes (es1 ++ es2) pos ∧
    (optimizeLayout tick opts g).length = g.nodes.length := by
  constructor
  · rw [linkForcePass, linkForcePass, hsplit, List.foldl_append, List.foldl_append,
      List.foldl_cons, hdangling]
    simp
  · rw [optimizeLayout]
    exact List.length_mapIdx

/-- Closed instance of `dangling_edge_skipped` at a one-vertex graph
with an edge to the unknown identifier "Z". -/
theorem dangling_edge_skipped_witness :
    resolvable [(⟨"A", 0, 0⟩ : Node)] ⟨"A", "Z"⟩ = false ∧
    linkForcePass (fun _ p => p) [(⟨"A", 0, 0⟩ : Node)] [⟨"A", "Z"⟩] (fun _ => (0, 0)) =
      linkForcePass (fun _ p => p) [(⟨"A", 0, 0⟩ : Node)] [] (fun _ => (0, 0)) ∧
    (optimizeLayout id defaultOptions ⟨[⟨"A", 0, 0⟩], [⟨"A", "Z"⟩]⟩).length = 1 := by
  refine ⟨by decide, ?_⟩
  exact dangling_edge_skipped (fun _ p => p) ⟨[⟨"A", 0, 0⟩], [⟨"A", "Z"⟩]⟩ ⟨"A", "Z"⟩
    [] [] (fun _ => (0, 0)) id defaultOptions (by decide) rfl

/-- C8 counterexample: no entry validation of `width`/`height` exists
(neither in the constructor, lines 19–32, which only merges defaults,
nor in `optimizeLayout`): called with zero workspace dimensions the
function does not fail fast with a configuration error — it returns a
normal result.  (In JS the division by zero would produce non-finite
values; in this exact-arithmetic embedding `x / 0 = 0`.  Either way no
error is raised.) -/
theorem optimizeLayout_no_validation_counterexample :
    optimizeLayout id { defaultOptions with width := 0, height := 0 }
      ⟨[⟨"A", 1/2, 1/2⟩], []⟩ = [⟨"A", 0, 0⟩] := by
  simp [optimizeLayout, Function.iterate_id]

/-- C8 amended: `optimizeLayout` performs no width/height validation and
has no failure path: with `width = 0` and `height = 0` it still returns
one vertex per input vertex, and (division by the zero dimension being 0
in exact arithmetic) every returned coordinate is 0. -/
theorem optimizeLayout_degenerate_dims (tick : (ℕ → ℚ × ℚ) → (ℕ → ℚ × ℚ))
    (opts : LayoutOptions) (g : GraphData)
    (hw : opts.width = 0) (hh : opts.height = 0) :
    (optimizeLayout tick opts g).length = g.nodes.length ∧
    ∀ nd ∈ optimizeLayout tick opts g, nd.x = 0 ∧ nd.y = 0 := by
  constructor
  · rw [optimizeLayout]
    exact List.length_mapIdx
  · intro nd hnd
    rw [optimizeLayout, List.mapIdx_eq_enum_map] at hnd
    obtain ⟨⟨i, node⟩, _, rfl⟩ := List.mem_map.mp hnd
    constructor
    · show max 0 (min 1 (_ / opts.width)) = 0
      rw [hw, div_zero]
      norm_num
    · show max 0 (min 1 (_ / opts.height)) = 0
      rw [hh, div_zero]
      norm_num

/-- Closed instance of `optimizeLayout_degenerate_dims`. -/
theorem optimizeLayout_degenerate_dims_witness :
    ({ defaultOptions with width := 0, height := 0 } : LayoutOptions).width = 0 ∧
    ({ defaultOptions with width := 0, height := 0 } : LayoutOptions).height = 0 ∧
    (optimizeLayout id { defaultOptions with width := 0, height := 0 }
      ⟨[⟨"A", 1/2, 1/2⟩], []⟩).length = 1 := by
  refine ⟨rfl, rfl, ?_⟩
  rw [(optimizeLayout_degenerate_dims id { defaultOptions with width := 0, height := 0 }
    ⟨[⟨"A", 1/2, 1/2⟩], []⟩ rfl rfl).1]
  rfl

/-- State-passing embedding of one `optimizeLayout` call for the frame
property: the pair is (returned list, the caller's graph as observable
after the call).  In the source the call allocates fresh
simulation-node records (`graphData.nodes.map(node => ({id, x, y}))`,
lines 36–40) and fresh link records
(`graphData.edges.map(edge => ({source, target}))`, lines 42–45); the
d3 simulation receives references only to those copies, and every write
performed by the function or the simulation targets the copies or the
freshly built result records of the final `map` (lines 62–66).  No
statement writes into `graphData`, so the input graph value passes
through the call unchanged. -/
def optimizeLayoutCall (tick : (ℕ → ℚ × ℚ) → (ℕ → ℚ × ℚ))
    (opts : LayoutOptions) (g : GraphData) : List Node × GraphData :=
  (optimizeLayout tick opts g, g)

/-- C9: the call never mutates its input: after the call every vertex of
`graph.nodes` has its original identifier and position, `graph.edges` is
unchanged, and the first component is the freshly constructed result. -/
theorem optimizeLayout_no_mutation (tick : (ℕ → ℚ × ℚ) → (ℕ → ℚ × ℚ))
    (opts : LayoutOptions) (g : GraphData) :
    (optimizeLayoutCall tick opts g).2.nodes = g.nodes ∧
    (optimizeLayoutCall tick opts g).2.edges = g.edges ∧
    (optimizeLayoutCall tick opts g).1 = optimizeLayout tick opts g :=
  ⟨rfl, rfl, rfl⟩

/-- C10: with `iterations = 0`, positive dimensions and resolvable
edges, the layout is a clamped identity: each output position is
`clamp((x * width) / width) = clamp(x)` (no simulation step is taken),
so in-range input positions are returned unchanged.  (Input coordinates
are rationals, hence always finite.) -/
theorem optimizeLayout_zero_iterations (tick : (ℕ → ℚ × ℚ) → (ℕ → ℚ × ℚ))
    (opts : LayoutOptions) (g : GraphData)
    (hiter : opts.iterations = 0) (hw : 0 < opts.width) (hh : 0 < opts.height)
    (hres : ∀ e ∈ g.edges, resolvable g.nodes e = true) :
    optimizeLayout tick opts g =
      g.nodes.map (fun n => ⟨n.id, max 0 (min 1 n.x), max 0 (min 1 n.y)⟩) ∧
    ((∀ n ∈ g.nodes, 0 ≤ n.x ∧ n.x ≤ 1 ∧ 0 ≤ n.y ∧ n.y ≤ 1) →
      optimizeLayout tick opts g = g.nodes) := by
  have hmain : optimizeLayout tick opts g =
      g.nodes.map (fun n => ⟨n.id, max 0 (min 1 n.x), max 0 (min 1 n.y)⟩) := by
    simp only [optimizeLayout, hiter, Function.iterate_zero, id_eq, List.mapIdx_eq_enum_map]
    conv_rhs => rw [← List.enum_map_snd g.nodes, List.map_map]
    apply List.map_congr_left
    rintro ⟨i, node⟩ hp
    have hget : g.nodes.get? i = some node := by
      rw [List.get?_eq_getElem?]
      exact List.mem_enum_iff_getElem?.mp hp
    simp only [Function.uncurry_apply_pair, Function.comp_apply, hget]
    rw [mul_div_cancel_right₀ _ (ne_of_gt hw), mul_div_cancel_right₀ _ (ne_of_gt hh)]
  refine ⟨hmain, fun hb => ?_⟩
  rw [hmain]
  conv_rhs => rw [← List.map_id g.nodes]
  apply List.map_congr_left
  intro n hn
  obtain ⟨hx0, hx1, hy0, hy1⟩ := hb n hn
  rw [min_eq_right hx1, max_eq_right hx0, min_eq_right hy1, max_eq_right hy0]
  rfl

/-- Closed instance of `optimizeLayout_zero_iterations`: an in-range
vertex with a resolvable self-loop edge is returned unchanged. -/
theorem optimizeLayout_zero_iterations_witness :
    ({ defaultOptions with iterations := 0 } : LayoutOptions).iterations = 0 ∧
    (0 : ℚ) < ({ defaultOptions with iterations := 0 } : LayoutOptions).width ∧
    (0 : ℚ) < ({ defaultOptions with iterations := 0 } : LayoutOptions).height ∧
    (∀ e ∈ ([⟨"A", "A"⟩] : List Edge), resolvable [(⟨"A", 1/2, 1/3⟩ : Node)] e = true) ∧
    optimizeLayout id { defaultOptions with iterations := 0 }
      ⟨[⟨"A", 1/2, 1/3⟩], [⟨"A", "A"⟩]⟩ = [⟨"A", 1/2, 1/3⟩] := by
  refine ⟨rfl, by norm_num [defaultOptions], by norm_num [defaultOptions], by decide, ?_⟩
  exact (optimizeLayout_zero_iterations id { defaultOptions with iterations := 0 }
    ⟨[⟨"A", 1/2, 1/3⟩], [⟨"A", "A"⟩]⟩ rfl (by norm_num [defaultOptions])
    (by norm_num [defaultOptions]) (by decide)).2 (by norm_num)

end GraphViz
